import Mathlib

/-!
Shallow embedding of the `clock` repository's io_uring ring protocol
(`src/io_uring/mod.rs`) and its event loop (`src/main.rs`).

The ring's shared-memory control page is modelled as an explicit state
(`Ring`): the application-owned submission tail and completion head are `Nat`
values carrying the `u32` counters, the slot arrays are total functions from
slot index to entry, and every memory access the Rust code performs is
recorded as an `Event` in an explicit trace, so that ordering claims (field
writes before fence before tail update, head update before field reads) are
statements about the trace.
-/

namespace Clock

/-- Modulus of the 32-bit counters (`u32` tail/head in the control page). -/
def u32Mod : Nat := 2 ^ 32

/-- Error numbers are the positive Linux errno values (`nc::Errno`). -/
abbrev Errno := Nat

/-- Linux error number `nc::EINTR`. -/
def EINTR : Errno := 4

/-- Linux error number `nc::EIO`, returned by `main` on an unrecognized completion tag. -/
def EIO : Errno := 5

/-- Discriminant of `IOURING_OP::IORING_OP_READ`. -/
def IORING_OP_READ : Nat := 22

/-- Discriminant of `IOURING_OP::IORING_OP_TIMEOUT`. -/
def IORING_OP_TIMEOUT : Nat := 11

/-- Flag `nc::IORING_ENTER_GETEVENTS` of `io_uring_enter`. -/
def IORING_ENTER_GETEVENTS : Nat := 1

/-- Truncating cast of a Rust `usize` value to `i32`, as in `fd as i32`
inside `IoUring::prepare` (`usize::MAX as i32 = -1` for the timeout's
"no descriptor" sentinel). -/
def toI32 (n : Nat) : Int :=
  if n % u32Mod < 2 ^ 31 then (n % u32Mod : Int) else (n % u32Mod : Int) - (u32Mod : Int)

/-- One submission-queue entry (`nc::io_uring_sqe_t`), restricted to the
fields `IoUring::prepare` writes: opcode (`u8`), fd (`i32`), buffer address
(`u64`), length (`u32`), correlation tag `user_data` (`u64`), and the
operation-specific flag word `timeout_flags` (`u32`). -/
structure SQE where
  opcode : Nat
  fd : Int
  addr : Nat
  len : Nat
  user_data : Nat
  timeout_flags : Nat
  deriving DecidableEq, Repr

/-- One completion-queue entry (`nc::io_uring_cqe_t`): the echoed correlation
tag `user_data` (`u64`) and the signed result `res` (`i32`). -/
structure CQE where
  user_data : Nat
  res : Int
  deriving DecidableEq, Repr

/-- State of the mapped ring region seen through the kernel-reported offsets:
the application-owned `u32` counters (`sqTail`, `cqHead`), the two ring masks,
the submission index-translation array (`sq_off.array`), the submission-entry
slots (`sqes` mapping), and the completion-entry slots (`cq_off.cqes`). -/
structure Ring where
  sqTail : Nat
  sqMask : Nat
  sqArray : Nat → Nat
  sqes : Nat → SQE
  cqHead : Nat
  cqMask : Nat
  cqes : Nat → CQE

/-- Memory/system events emitted by the embedded operations, in program
order.  `fenceEv` is the `fence(Ordering::SeqCst)` call; `enterEv` records an
`io_uring_enter` system call by its `(to_submit, min_complete, flags)`
arguments; `readUserData`/`readRes` are the caller's field reads through the
reference returned by `complete`. -/
inductive Event where
  | readTail (v : Nat)
  | writeSqe (slot : Nat) (e : SQE)
  | writeArray (pos val : Nat)
  | fenceEv
  | writeTail (v : Nat)
  | refCqe (slot : Nat)
  | writeHead (v : Nat)
  | readUserData (slot : Nat) (v : Nat)
  | readRes (slot : Nat) (v : Int)
  | enterEv (toSubmit minComplete flags : Nat)
  deriving DecidableEq, Repr

/-- Embedding of `IoUring::prepare` (src/io_uring/mod.rs:59-84): read the tail, compute
slot `tail & ring_mask`, write the six entry fields into that slot, write the
slot index into the index-translation array at the same position, fence, then
`*tail += 1` (a `u32` increment, hence modulo `2^32`).  Returns the new ring
state and the trace of the accesses in program order. -/
def prepare (r : Ring) (op_code : Nat) (fd : Nat) (addr : Nat) (len : Nat)
    (user_data : Nat) (timeout_flags : Nat) : Ring × List Event :=
  let tail := r.sqTail
  let index := tail &&& r.sqMask
  let e : SQE :=
    { opcode := op_code % 2 ^ 8
      fd := toI32 fd
      addr := addr
      len := len % u32Mod
      user_data := user_data % 2 ^ 64
      timeout_flags := timeout_flags % u32Mod }
  let r' : Ring :=
    { r with
      sqes := fun i => if i = index then e else r.sqes i
      sqArray := fun i => if i = index then index else r.sqArray i
      sqTail := (tail + 1) % u32Mod }
  (r', [Event.readTail tail, Event.writeSqe index e, Event.writeArray index index,
        Event.fenceEv, Event.writeTail ((tail + 1) % u32Mod)])

/-- Embedding of `IoUring::complete` (src/io_uring/mod.rs:86-96): compute slot
`head & ring_mask`, take a reference to the entry at that slot (`refCqe`),
fence, then `*head += 1` and return the reference.  The returned value is the
slot index: the Rust function returns `&io_uring_cqe_t` borrowed from the
mapped completion array, not a copy, so the entry's fields are read later,
through this reference, by the caller. -/
def complete (r : Ring) : Ring × Nat × List Event :=
  let slot := r.cqHead &&& r.cqMask
  let r' : Ring := { r with cqHead := (r.cqHead + 1) % u32Mod }
  (r', slot, [Event.refCqe slot, Event.fenceEv,
              Event.writeHead ((r.cqHead + 1) % u32Mod)])

/-- Embedding of `IoUring::prepare_read` (src/io_uring/mod.rs:98-107): a read submission
with opcode `IORING_OP_READ`, the given descriptor, buffer address and
length, the caller's tag, and zero flags. -/
def prepare_read (r : Ring) (fd : Nat) (bufAddr bufLen : Nat) (user_data : Nat) :
    Ring × List Event :=
  prepare r IORING_OP_READ fd bufAddr bufLen user_data 0

/-- Embedding of `IoUring::prepare_timeout` (src/io_uring/mod.rs:109-118): a timeout
submission with opcode `IORING_OP_TIMEOUT`, descriptor sentinel `usize::MAX`,
address of the duration, length one, the caller's tag, and the given flags. -/
def prepare_timeout (r : Ring) (durAddr : Nat) (user_data : Nat) (flags : Nat) :
    Ring × List Event :=
  prepare r IORING_OP_TIMEOUT (2 ^ 64 - 1) durAddr 1 user_data flags

/-- Standard input descriptor `io::STDIN` (src/io.rs:34). -/
def STDIN : Nat := 0

/-- Value of `Token::Timeout as usize` (src/main.rs:283-287): the timer correlation
tag, explicitly `= 1`. -/
def tokenTimeout : Nat := 1

/-- Value of `Token::Read as usize` (src/main.rs:283-287): the read correlation tag,
the next discriminant, `2`. -/
def tokenRead : Nat := 2

/-- Quit bytes of the read-completion check (src/main.rs:323): the literal
list `[b'\x1b', b'q']`, i.e. the escape byte `27` and `q = 113`. -/
def quitBytes : List Nat := [27, 113]

/-- Quit condition of the `Read` dispatch arm (src/main.rs:323):
`cqe.res == 1 && [b'\x1b', b'q'].contains(&input_buf[0])`. -/
def quitCheck (res : Int) (b : Nat) : Bool :=
  res == 1 && quitBytes.contains b

/-- Projection of the staged submission entries out of a trace: the payloads
of its `writeSqe` events, in order. -/
def extractSqe : Event → Option SQE
  | Event.writeSqe _ e => some e
  | _ => none

/-- Entries staged into the submission queue by a trace. -/
def stagedOf (tr : List Event) : List SQE :=
  tr.filterMap extractSqe

/-- Slots of the `writeSqe` events of a trace, in order. -/
def sqeWriteSlots (tr : List Event) : List Nat :=
  tr.filterMap fun e =>
    match e with
    | Event.writeSqe s _ => some s
    | _ => none

/-- Checks that a trace hands nothing off to the kernel: every
`io_uring_enter` call in it has `to_submit = 0`. -/
def noHandOff (tr : List Event) : Bool :=
  tr.all fun e =>
    match e with
    | Event.enterEv t _ _ => t == 0
    | _ => true

/-- Embedding of the retry loop `wait` (src/main.rs:304-312), driven by an
oracle list of successive `ring.wait()` results and a list of successive
`redraw()` callback results.  `ring.wait()` is
`enter(0, 1, IORING_ENTER_GETEVENTS, null)` (src/io_uring/mod.rs:130-148),
recorded as an `enterEv 0 1 1` event per call.  Returns the propagated
result, the number of callback invocations, and the event trace.  An
exhausted oracle yields the sentinel `Except.error 0`; theorems only use
oracles that end in a non-`EINTR` result, where the sentinel is unreachable. -/
def waitFn : List (Except Errno Int) → List (Except Errno Unit) →
    Except Errno Unit × Nat × List Event
  | [], _ => (Except.error 0, 0, [])
  | w :: ws, cbs =>
    match w with
    | Except.ok _ => (Except.ok (), 0, [Event.enterEv 0 1 IORING_ENTER_GETEVENTS])
    | Except.error e =>
      if e = EINTR then
        match cbs with
        | [] => (Except.error 0, 0, [Event.enterEv 0 1 IORING_ENTER_GETEVENTS])
        | cb :: cbs' =>
          match cb with
          | Except.error ce =>
            (Except.error ce, 1, [Event.enterEv 0 1 IORING_ENTER_GETEVENTS])
          | Except.ok _ =>
            let rest := waitFn ws cbs'
            (rest.1, rest.2.1 + 1,
             Event.enterEv 0 1 IORING_ENTER_GETEVENTS :: rest.2.2)
      else (Except.error e, 0, [Event.enterEv 0 1 IORING_ENTER_GETEVENTS])

/-- Oracle input for one iteration of the main loop: the `ring.wait()`
results and callback results consumed by `wait`, the completion entry the
kernel delivers into the completion ring while the application blocks, the
first byte of `input_buf` after that delivery, and the results of
`get_time()`, `redraw()` and `ring.submit(1)`. -/
structure KernelStep where
  waits : List (Except Errno Int)
  cbs : List (Except Errno Unit)
  cqe : CQE
  buf0 : Nat
  getTimeRes : Except Errno Int
  redrawRes : Except Errno Unit
  submitRes : Except Errno Int

/-- Outcome of one iteration of the `loop` in `main` (src/main.rs:314-336):
`exit` is the `break` (clean shutdown), `cont` falls through to the next
iteration, `fatal e` is a `return Err(e)` or `?`-propagation out of `main`. -/
inductive IterOut where
  | exit
  | cont
  | fatal (e : Errno)
  deriving DecidableEq, Repr

/-- Which dispatch path an iteration took (model instrumentation for the
branch structure of the `match cqe.user_data` in src/main.rs:317-334). -/
inductive Branch where
  | waitFailed
  | timer
  | readQuit
  | readRestage
  | unknownTag
  deriving DecidableEq, Repr

/-- Result of one embedded loop iteration. -/
structure IterResult where
  out : IterOut
  ring : Ring
  trace : List Event
  popped : Option Nat
  branch : Branch

/-- One iteration of the main loop (src/main.rs:314-336): `wait`, then
`complete()`, then dispatch on the popped entry's `user_data` read through
the reference `complete` returned; the `Timeout` arm refreshes the time and
redraws, the `Read` arm either breaks on the quit condition or re-stages the
read via `prepare_read(STDIN, input_buf, Token::Read)`, any other tag
returns `Err(EIO)`; finally `ring.submit(1)` (an `enter(1, 0, 0)` call).
The kernel's delivery of the completion entry into slot `cqHead & cqMask`
during the blocking wait is installed into the ring state up front — it is
the kernel's half of the protocol, not an action of the embedded program. -/
def iterate (bufAddr : Nat) (r : Ring) (st : KernelStep) : IterResult :=
  let slot := r.cqHead &&& r.cqMask
  let r0 : Ring := { r with cqes := fun i => if i = slot then st.cqe else r.cqes i }
  let w := waitFn st.waits st.cbs
  match w.1 with
  | Except.error e => ⟨IterOut.fatal e, r0, w.2.2, none, Branch.waitFailed⟩
  | Except.ok _ =>
    let c := complete r0
    let r1 := c.1
    let cslot := c.2.1
    let tag := (r1.cqes cslot).user_data
    let tr1 := w.2.2 ++ c.2.2 ++ [Event.readUserData cslot tag]
    if tag = tokenTimeout then
      match st.getTimeRes with
      | Except.error e => ⟨IterOut.fatal e, r1, tr1, some tag, Branch.timer⟩
      | Except.ok _ =>
        match st.redrawRes with
        | Except.error e => ⟨IterOut.fatal e, r1, tr1, some tag, Branch.timer⟩
        | Except.ok _ =>
          match st.submitRes with
          | Except.error e =>
            ⟨IterOut.fatal e, r1, tr1 ++ [Event.enterEv 1 0 0], some tag, Branch.timer⟩
          | Except.ok _ =>
            ⟨IterOut.cont, r1, tr1 ++ [Event.enterEv 1 0 0], some tag, Branch.timer⟩
    else if tag = tokenRead then
      let res := (r1.cqes cslot).res
      let tr2 := tr1 ++ [Event.readRes cslot res]
      if quitCheck res st.buf0 then
        ⟨IterOut.exit, r1, tr2, some tag, Branch.readQuit⟩
      else
        let p := prepare_read r1 STDIN bufAddr 32 tokenRead
        let tr3 := tr2 ++ p.2 ++ [Event.enterEv 1 0 0]
        match st.submitRes with
        | Except.error e => ⟨IterOut.fatal e, p.1, tr3, some tag, Branch.readRestage⟩
        | Except.ok _ => ⟨IterOut.cont, p.1, tr3, some tag, Branch.readRestage⟩
    else
      ⟨IterOut.fatal EIO, r1, tr1, some tag, Branch.unknownTag⟩

/-- The submission entry `prepare_read(STDIN, input_buf, Token::Read)`
writes: opcode `IORING_OP_READ`, descriptor 0, the buffer's address, length
32 (`input_buf: [u8; 32]`), tag `Token::Read`, zero flags. -/
def readSQE (bufAddr : Nat) : SQE :=
  { opcode := IORING_OP_READ, fd := 0, addr := bufAddr, len := 32,
    user_data := tokenRead, timeout_flags := 0 }

/-- The submission entry `prepare_timeout(&duration, Token::Timeout, 1 << 6)`
writes: opcode `IORING_OP_TIMEOUT`, the `usize::MAX` descriptor sentinel
(`-1` after the `i32` cast), the duration's address, length 1, tag
`Token::Timeout`, and the multishot flag bit `1 << 6`. -/
def timeoutSQE (durAddr : Nat) : SQE :=
  { opcode := IORING_OP_TIMEOUT, fd := -1, addr := durAddr, len := 1,
    user_data := tokenTimeout, timeout_flags := 64 }

/-- Startup staging (src/main.rs:288-302): `prepare_read(STDIN, input_buf,
Token::Read)`, then `prepare_timeout(&duration, Token::Timeout, 1 << 6)`,
then `ring.submit(2)`.  A failed `submit(2)` aborts `main` before the loop;
that only cuts a run short, so its result is not modelled. -/
def setup (bufAddr durAddr : Nat) (r : Ring) : Ring × List Event :=
  let p1 := prepare_read r STDIN bufAddr 32 tokenRead
  let p2 := prepare_timeout p1.1 durAddr tokenTimeout (1 <<< 6)
  (p2.1, p1.2 ++ p2.2 ++ [Event.enterEv 2 0 0])

/-- Outcome of a whole run of the loop against a finite oracle. -/
inductive RunOut where
  | clean
  | fatal (e : Errno)
  | running
  deriving DecidableEq, Repr

/-- Result of a run: outcome, final ring, and one summary per executed
iteration — the popped completion tag and the entries that iteration staged. -/
structure RunResult where
  out : RunOut
  ring : Ring
  sums : List (Option Nat × List SQE)

/-- The main loop run against a finite oracle of kernel steps.  `running`
means the oracle was exhausted with the loop still going. -/
def runLoop (bufAddr : Nat) : Ring → List KernelStep → RunResult
  | r, [] => ⟨RunOut.running, r, []⟩
  | r, st :: rest =>
    let it := iterate bufAddr r st
    match it.out with
    | IterOut.exit => ⟨RunOut.clean, it.ring, [(it.popped, stagedOf it.trace)]⟩
    | IterOut.fatal e => ⟨RunOut.fatal e, it.ring, [(it.popped, stagedOf it.trace)]⟩
    | IterOut.cont =>
      let rest' := runLoop bufAddr it.ring rest
      ⟨rest'.out, rest'.ring, (it.popped, stagedOf it.trace) :: rest'.sums⟩

/-- Argument tuple of one `IoUring::prepare` call. -/
structure PrepArgs where
  op : Nat
  fd : Nat
  addr : Nat
  len : Nat
  ud : Nat
  fl : Nat

/-- N successive `prepare` calls, the i-th with arguments `argsF i`. -/
def prepareN (argsF : Nat → PrepArgs) (r : Ring) : Nat → Ring
  | 0 => r
  | n + 1 =>
    let r' := prepareN argsF r n
    let a := argsF n
    (prepare r' a.op a.fd a.addr a.len a.ud a.fl).1

/-- N successive `complete` calls. -/
def completeN (r : Ring) : Nat → Ring
  | 0 => r
  | n + 1 => (complete (completeN r n)).1

/-- Is this event one of the caller's reads of the popped entry's fields
through the reference returned by `complete`? -/
def isFieldRead : Event → Bool
  | Event.readUserData _ _ => true
  | Event.readRes _ _ => true
  | _ => false

/-- Slot a field-read event reads from, when it is one. -/
def fieldReadSlot : Event → Option Nat
  | Event.readUserData s _ => some s
  | Event.readRes s _ => some s
  | _ => none

/-- Checks the release-before-read shape of a trace: no completion-entry
field is read before the first `writeHead`, and every field read after the
first `writeHead v` targets exactly the slot that head update released,
`(v - 1) & mask`. -/
def headBeforeReads (mask : Nat) : List Event → Bool
  | [] => true
  | Event.writeHead v :: rest =>
    rest.all fun e =>
      match fieldReadSlot e with
      | some s => s == (v - 1) &&& mask
      | none => true
  | e :: rest => !isFieldRead e && headBeforeReads mask rest

/-- Interrupt character in the POSIX sense the spec's words invoke: the
default `VINTR` control character ETX (Ctrl-C), byte `0x03`.  Used only to
state the spec's description of the quit bytes; the source compares against
`quitBytes`, which holds the escape byte `0x1b` instead. -/
def interruptChar : Nat := 3

/-- Terminator set as the spec's words describe it: "the interrupt character
or the literal character `q`". -/
def specTerminators : List Nat := [interruptChar, 113]

/-! ## Concrete instances for witnesses and counterexamples -/

/-- Concrete ring state used by witnesses and counterexamples: capacity-2
geometry (masks 1), zeroed slots and counters. -/
def ring0 : Ring :=
  { sqTail := 0, sqMask := 1, sqArray := fun _ => 0,
    sqes := fun _ => ⟨0, 0, 0, 0, 0, 0⟩,
    cqHead := 0, cqMask := 1, cqes := fun _ => ⟨0, 0⟩ }

/-- Constant argument function used by the `counters_monotonic` witness. -/
def args0 : Nat → PrepArgs := fun _ => ⟨22, 0, 500, 32, 2, 0⟩

/-- Kernel step delivering a `Read` completion of one byte whose buffer
holds `q` (113): the quit scenario. -/
def stepQuit : KernelStep :=
  { waits := [Except.ok 1], cbs := [], cqe := ⟨2, 1⟩, buf0 := 113,
    getTimeRes := Except.ok 0, redrawRes := Except.ok (), submitRes := Except.ok 1 }

/-- Kernel step delivering a `Read` completion of one byte whose buffer
holds the POSIX interrupt character ETX (3). -/
def stepIntr : KernelStep :=
  { waits := [Except.ok 1], cbs := [], cqe := ⟨2, 1⟩, buf0 := interruptChar,
    getTimeRes := Except.ok 0, redrawRes := Except.ok (), submitRes := Except.ok 1 }

/-- Kernel step delivering a `Read` completion reporting zero bytes read. -/
def stepZero : KernelStep :=
  { waits := [Except.ok 1], cbs := [], cqe := ⟨2, 0⟩, buf0 := 0,
    getTimeRes := Except.ok 0, redrawRes := Except.ok (), submitRes := Except.ok 1 }

/-- Kernel step delivering a `Read` completion of five bytes (no quit). -/
def stepData : KernelStep :=
  { waits := [Except.ok 1], cbs := [], cqe := ⟨2, 5⟩, buf0 := 104,
    getTimeRes := Except.ok 0, redrawRes := Except.ok (), submitRes := Except.ok 1 }

/-- Kernel step delivering a completion with an unknown correlation tag. -/
def stepOther : KernelStep :=
  { waits := [Except.ok 1], cbs := [], cqe := ⟨7, 1⟩, buf0 := 0,
    getTimeRes := Except.ok 0, redrawRes := Except.ok (), submitRes := Except.ok 1 }

/-! ## Claims about the ring operations -/

/-- C1: every call to `IoUring::prepare` reads the current tail, computes the
slot as `tail & ring_mask`, writes the fixed-size entry fields into that
slot, writes the slot index into the index-translation array at the same
position, issues a full memory fence, and only then increments the tail by
exactly one — in that order. -/
theorem prepare_step_order (r : Ring) (op fd addr len ud fl : Nat)
    (h : r.sqTail + 1 < u32Mod) :
    (prepare r op fd addr len ud fl).2 =
      [Event.readTail r.sqTail,
       Event.writeSqe (r.sqTail &&& r.sqMask)
         ⟨op % 2 ^ 8, toI32 fd, addr, len % u32Mod, ud % 2 ^ 64, fl % u32Mod⟩,
       Event.writeArray (r.sqTail &&& r.sqMask) (r.sqTail &&& r.sqMask),
       Event.fenceEv,
       Event.writeTail (r.sqTail + 1)] ∧
    (prepare r op fd addr len ud fl).1.sqTail = r.sqTail + 1 ∧
    (prepare r op fd addr len ud fl).1.sqes (r.sqTail &&& r.sqMask) =
      ⟨op % 2 ^ 8, toI32 fd, addr, len % u32Mod, ud % 2 ^ 64, fl % u32Mod⟩ := by
  refine ⟨?_, ?_, ?_⟩ <;> simp [prepare, Nat.mod_eq_of_lt h]

/-- Witness for `prepare_step_order` at the concrete ring `ring0` and the
read submission's arguments. -/
theorem prepare_step_order_witness :
    ring0.sqTail + 1 < u32Mod ∧
    ((prepare ring0 22 0 500 32 2 0).2 =
       [Event.readTail ring0.sqTail,
        Event.writeSqe (ring0.sqTail &&& ring0.sqMask)
          ⟨22 % 2 ^ 8, toI32 0, 500, 32 % u32Mod, 2 % 2 ^ 64, 0 % u32Mod⟩,
        Event.writeArray (ring0.sqTail &&& ring0.sqMask)
          (ring0.sqTail &&& ring0.sqMask),
        Event.fenceEv,
        Event.writeTail (ring0.sqTail + 1)] ∧
     (prepare ring0 22 0 500 32 2 0).1.sqTail = ring0.sqTail + 1 ∧
     (prepare ring0 22 0 500 32 2 0).1.sqes (ring0.sqTail &&& ring0.sqMask) =
       ⟨22 % 2 ^ 8, toI32 0, 500, 32 % u32Mod, 2 % 2 ^ 64, 0 % u32Mod⟩) :=
  ⟨by decide, prepare_step_order ring0 22 0 500 32 2 0 (by decide)⟩

/-- C2: every call to `IoUring::complete` takes the entry at slot
`head & ring_mask`, issues a memory fence, and only then increments the head
by exactly one; the completion it returns carries the correlation tag and
the signed result stored at that slot. -/
theorem complete_step_order (r : Ring) (h : r.cqHead + 1 < u32Mod) :
    (complete r).2.2 =
      [Event.refCqe (r.cqHead &&& r.cqMask), Event.fenceEv,
       Event.writeHead (r.cqHead + 1)] ∧
    (complete r).2.1 = r.cqHead &&& r.cqMask ∧
    (complete r).1.cqHead = r.cqHead + 1 ∧
    ((complete r).1.cqes (complete r).2.1).user_data =
      (r.cqes (r.cqHead &&& r.cqMask)).user_data ∧
    ((complete r).1.cqes (complete r).2.1).res =
      (r.cqes (r.cqHead &&& r.cqMask)).res := by
  refine ⟨?_, rfl, ?_, rfl, rfl⟩ <;> simp [complete, Nat.mod_eq_of_lt h]

/-- Witness for `complete_step_order` at the concrete ring `ring0`. -/
theorem complete_step_order_witness :
    ring0.cqHead + 1 < u32Mod ∧
    ((complete ring0).2.2 =
       [Event.refCqe (ring0.cqHead &&& ring0.cqMask), Event.fenceEv,
        Event.writeHead (ring0.cqHead + 1)] ∧
     (complete ring0).2.1 = ring0.cqHead &&& ring0.cqMask ∧
     (complete ring0).1.cqHead = ring0.cqHead + 1 ∧
     ((complete ring0).1.cqes (complete ring0).2.1).user_data =
       (ring0.cqes (ring0.cqHead &&& ring0.cqMask)).user_data ∧
     ((complete ring0).1.cqes (complete ring0).2.1).res =
       (ring0.cqes (ring0.cqHead &&& ring0.cqMask)).res) :=
  ⟨by decide, complete_step_order ring0 (by decide)⟩

theorem prepareN_sqTail (argsF : Nat → PrepArgs) (r : Ring) :
    ∀ n, r.sqTail + n < u32Mod → (prepareN argsF r n).sqTail = r.sqTail + n := by
  intro n
  induction n with
  | zero => intro _; rfl
  | succ k ih =>
    intro h
    have hk := ih (by omega)
    simp only [prepareN, prepare]
    rw [hk, Nat.mod_eq_of_lt (by omega)]
    omega

theorem prepareN_cqHead (argsF : Nat → PrepArgs) (r : Ring) :
    ∀ n, (prepareN argsF r n).cqHead = r.cqHead := by
  intro n
  induction n with
  | zero => rfl
  | succ k ih => simp only [prepareN, prepare]; exact ih

theorem prepareN_sqMask (argsF : Nat → PrepArgs) (r : Ring) :
    ∀ n, (prepareN argsF r n).sqMask = r.sqMask := by
  intro n
  induction n with
  | zero => rfl
  | succ k ih => simp only [prepareN, prepare]; exact ih

theorem completeN_cqHead (r : Ring) :
    ∀ n, r.cqHead + n < u32Mod → (completeN r n).cqHead = r.cqHead + n := by
  intro n
  induction n with
  | zero => intro _; rfl
  | succ k ih =>
    intro h
    have hk := ih (by omega)
    simp only [completeN, complete]
    rw [hk, Nat.mod_eq_of_lt (by omega)]
    omega

theorem completeN_sqTail (r : Ring) : ∀ n, (completeN r n).sqTail = r.sqTail := by
  intro n
  induction n with
  | zero => rfl
  | succ k ih => simp only [completeN, complete]; exact ih

theorem completeN_cqMask (r : Ring) : ∀ n, (completeN r n).cqMask = r.cqMask := by
  intro n
  induction n with
  | zero => rfl
  | succ k ih => simp only [completeN, complete]; exact ih

theorem sqeWriteSlots_prepare (r : Ring) (op fd addr len ud fl : Nat) :
    sqeWriteSlots (prepare r op fd addr len ud fl).2 = [r.sqTail &&& r.sqMask] := by
  simp [sqeWriteSlots, prepare]

/-- C3: after N `prepare` calls the submission tail equals its initial value
plus N, and after N `complete` calls the completion head equals its initial
value plus N (monotonic counters, no wraparound within the `u32` range);
`prepare` leaves the completion head untouched and `complete` leaves the
submission tail untouched; and every slot selection is by the masked counter:
the i-th `prepare` writes its entry at slot `(tail₀ + i) & sq_mask` and the
i-th `complete` reads slot `(head₀ + i) & cq_mask`. -/
theorem counters_monotonic (argsF : Nat → PrepArgs) (r : Ring) (n : Nat)
    (hs : r.sqTail + n < u32Mod) (hc : r.cqHead + n < u32Mod) :
    (prepareN argsF r n).sqTail = r.sqTail + n ∧
    (prepareN argsF r n).cqHead = r.cqHead ∧
    (completeN r n).cqHead = r.cqHead + n ∧
    (completeN r n).sqTail = r.sqTail ∧
    ((List.range n).all fun i =>
      sqeWriteSlots (prepare (prepareN argsF r i) (argsF i).op (argsF i).fd
          (argsF i).addr (argsF i).len (argsF i).ud (argsF i).fl).2 ==
        [(r.sqTail + i) &&& r.sqMask]) = true ∧
    ((List.range n).all fun i =>
      (complete (completeN r i)).2.1 == (r.cqHead + i) &&& r.cqMask) = true := by
  refine ⟨prepareN_sqTail argsF r n hs, prepareN_cqHead argsF r n,
    completeN_cqHead r n hc, completeN_sqTail r n, ?_, ?_⟩
  · rw [List.all_eq_true]
    intro i hi
    have hin : i < n := List.mem_range.mp hi
    rw [beq_iff_eq, sqeWriteSlots_prepare,
      prepareN_sqTail argsF r i (by omega), prepareN_sqMask argsF r i]
  · rw [List.all_eq_true]
    intro i hi
    have hin : i < n := List.mem_range.mp hi
    have : (complete (completeN r i)).2.1 = (completeN r i).cqHead &&& (completeN r i).cqMask := rfl
    rw [beq_iff_eq, this, completeN_cqHead r i (by omega), completeN_cqMask r i]

/-- Witness for `counters_monotonic` at the concrete ring `ring0`, three
operations on each queue. -/
theorem counters_monotonic_witness :
    ring0.sqTail + 3 < u32Mod ∧ ring0.cqHead + 3 < u32Mod ∧
    ((prepareN args0 ring0 3).sqTail = ring0.sqTail + 3 ∧
     (prepareN args0 ring0 3).cqHead = ring0.cqHead ∧
     (completeN ring0 3).cqHead = ring0.cqHead + 3 ∧
     (completeN ring0 3).sqTail = ring0.sqTail ∧
     ((List.range 3).all fun i =>
       sqeWriteSlots (prepare (prepareN args0 ring0 i) (args0 i).op (args0 i).fd
           (args0 i).addr (args0 i).len (args0 i).ud (args0 i).fl).2 ==
         [(ring0.sqTail + i) &&& ring0.sqMask]) = true ∧
     ((List.range 3).all fun i =>
       (complete (completeN ring0 i)).2.1 == (ring0.cqHead + i) &&& ring0.cqMask) = true) :=
  ⟨by decide, by decide, counters_monotonic args0 ring0 3 (by decide) (by decide)⟩

/-! ## Claims about the wait retry loop -/

theorem waitFn_replicate (final : Except Errno Int) (hf : final ≠ Except.error EINTR) :
    ∀ n, waitFn (List.replicate n (Except.error EINTR) ++ [final])
        (List.replicate n (Except.ok ())) =
      (Except.map (fun _ => ()) final, n,
       List.replicate (n + 1) (Event.enterEv 0 1 IORING_ENTER_GETEVENTS)) := by
  intro n
  induction n with
  | zero =>
    simp only [List.replicate, List.nil_append]
    cases final with
    | ok v => rfl
    | error e =>
      have he : e ≠ EINTR := fun h => hf (by rw [h])
      simp [waitFn, he, Except.map]
  | succ k ih =>
    simp only [List.replicate_succ, List.cons_append, waitFn]
    simp [ih, List.replicate_succ]

/-- C6: when the blocking wait is interrupted by a signal (`EINTR`) n times
in a row before a non-`EINTR` result, the retry loop `wait` invokes the
refresh callback exactly once per interruption, retries the wait each time
with `to_submit = 0` (resubmitting nothing: every `io_uring_enter` call it
makes is `enter(0, 1, IORING_ENTER_GETEVENTS)`), never surfaces `EINTR` as
an error past the loop, and returns any other wait failure as the fatal
result. -/
theorem wait_eintr_handling (n : Nat) (final : Except Errno Int)
    (hf : final ≠ Except.error EINTR) :
    waitFn (List.replicate n (Except.error EINTR) ++ [final])
        (List.replicate n (Except.ok ())) =
      (Except.map (fun _ => ()) final, n,
       List.replicate (n + 1) (Event.enterEv 0 1 IORING_ENTER_GETEVENTS)) ∧
    (waitFn (List.replicate n (Except.error EINTR) ++ [final])
        (List.replicate n (Except.ok ()))).1 ≠ Except.error EINTR ∧
    noHandOff (waitFn (List.replicate n (Except.error EINTR) ++ [final])
        (List.replicate n (Except.ok ()))).2.2 = true ∧
    (∀ e, final = Except.error e →
      (waitFn (List.replicate n (Except.error EINTR) ++ [final])
          (List.replicate n (Except.ok ()))).1 = Except.error e) := by
  have key := waitFn_replicate final hf n
  refine ⟨key, ?_, ?_, ?_⟩
  · rw [key]
    cases final with
    | ok v => simp [Except.map]
    | error e =>
      have he : e ≠ EINTR := fun h => hf (by rw [h])
      simp [Except.map, he]
  · rw [key]
    simp only [noHandOff, List.all_eq_true]
    intro e he
    rw [List.eq_of_mem_replicate he]
    rfl
  · intro e hfe
    rw [key, hfe]
    simp [Except.map]

/-- Witness for `wait_eintr_handling`: two consecutive interruptions followed
by a successful wait. -/
theorem wait_eintr_handling_witness :
    ((Except.ok 7 : Except Errno Int) ≠ Except.error EINTR) ∧
    (waitFn (List.replicate 2 (Except.error EINTR) ++ [Except.ok 7])
        (List.replicate 2 (Except.ok ())) =
      (Except.map (fun _ => ()) (Except.ok 7), 2,
       List.replicate (2 + 1) (Event.enterEv 0 1 IORING_ENTER_GETEVENTS)) ∧
    (waitFn (List.replicate 2 (Except.error EINTR) ++ [Except.ok 7])
        (List.replicate 2 (Except.ok ()))).1 ≠ Except.error EINTR ∧
    noHandOff (waitFn (List.replicate 2 (Except.error EINTR) ++ [Except.ok 7])
        (List.replicate 2 (Except.ok ()))).2.2 = true ∧
    (∀ e, (Except.ok 7 : Except Errno Int) = Except.error e →
      (waitFn (List.replicate 2 (Except.error EINTR) ++ [Except.ok 7])
          (List.replicate 2 (Except.ok ()))).1 = Except.error e)) :=
  ⟨by simp, wait_eintr_handling 2 (Except.ok 7) (by simp)⟩

/-! ## Trace helper lemmas -/

theorem waitFn_trace_all : ∀ (ws : List (Except Errno Int)) (cbs : List (Except Errno Unit)),
    ((waitFn ws cbs).2.2.all (fun e => e == Event.enterEv 0 1 IORING_ENTER_GETEVENTS)) = true := by
  intro ws
  induction ws with
  | nil => intro cbs; rfl
  | cons w ws ih =>
    intro cbs
    cases w with
    | ok v => rfl
    | error e =>
      by_cases he : e = EINTR
      · subst he
        cases cbs with
        | nil => rfl
        | cons cb cbs' =>
          cases cb with
          | error ce => rfl
          | ok u =>
            show ((Event.enterEv 0 1 IORING_ENTER_GETEVENTS :: (waitFn ws cbs').2.2).all
              (fun e => e == Event.enterEv 0 1 IORING_ENTER_GETEVENTS)) = true
            rw [List.all_cons, ih cbs']
            rfl
      · simp [waitFn, he]

theorem stagedOf_append (a b : List Event) : stagedOf (a ++ b) = stagedOf a ++ stagedOf b :=
  List.filterMap_append a b extractSqe

theorem stagedOf_waitFn (ws : List (Except Errno Int)) (cbs : List (Except Errno Unit)) :
    stagedOf (waitFn ws cbs).2.2 = [] := by
  rw [stagedOf, List.filterMap_eq_nil_iff]
  intro e he
  have h := waitFn_trace_all ws cbs
  rw [List.all_eq_true] at h
  have h2 := h e he
  rw [beq_iff_eq] at h2
  rw [h2]
  rfl

theorem noHandOff_waitFn (ws : List (Except Errno Int)) (cbs : List (Except Errno Unit)) :
    noHandOff (waitFn ws cbs).2.2 = true := by
  rw [noHandOff, List.all_eq_true]
  intro e he
  have h := waitFn_trace_all ws cbs
  rw [List.all_eq_true] at h
  have h2 := h e he
  rw [beq_iff_eq] at h2
  rw [h2]
  rfl

theorem headBeforeReads_append_enters (mask : Nat) (tr rest : List Event)
    (h : tr.all (fun e => e == Event.enterEv 0 1 IORING_ENTER_GETEVENTS) = true) :
    headBeforeReads mask (tr ++ rest) = headBeforeReads mask rest := by
  induction tr with
  | nil => rfl
  | cons e tr ih =>
    rw [List.all_cons, Bool.and_eq_true] at h
    obtain ⟨h1, h2⟩ := h
    rw [beq_iff_eq] at h1
    subst h1
    rw [List.cons_append]
    show (!isFieldRead (Event.enterEv 0 1 IORING_ENTER_GETEVENTS) &&
      headBeforeReads mask (tr ++ rest)) = headBeforeReads mask rest
    rw [ih h2]
    simp [isFieldRead]

/-! ## Branch characterization of one loop iteration -/

theorem iterate_wait_fail (bufAddr : Nat) (r : Ring) (st : KernelStep) (e : Errno)
    (hw : (waitFn st.waits st.cbs).1 = Except.error e) :
    iterate bufAddr r st =
      ⟨IterOut.fatal e,
       { r with cqes := fun i => if i = r.cqHead &&& r.cqMask then st.cqe else r.cqes i },
       (waitFn st.waits st.cbs).2.2, none, Branch.waitFailed⟩ := by
  simp only [iterate]
  rw [hw]

theorem iterate_unknown (bufAddr : Nat) (r : Ring) (st : KernelStep)
    (hw : (waitFn st.waits st.cbs).1 = Except.ok ())
    (h1 : st.cqe.user_data ≠ tokenTimeout) (h2 : st.cqe.user_data ≠ tokenRead) :
    iterate bufAddr r st =
      ⟨IterOut.fatal EIO,
       { r with
         cqes := fun i => if i = r.cqHead &&& r.cqMask then st.cqe else r.cqes i
         cqHead := (r.cqHead + 1) % u32Mod },
       (waitFn st.waits st.cbs).2.2 ++
         (Event.refCqe (r.cqHead &&& r.cqMask) :: Event.fenceEv ::
          Event.writeHead ((r.cqHead + 1) % u32Mod) ::
          Event.readUserData (r.cqHead &&& r.cqMask) st.cqe.user_data :: []),
       some st.cqe.user_data, Branch.unknownTag⟩ := by
  simp only [iterate]
  rw [hw]
  simp [complete, h1, h2]

theorem iterate_timer (bufAddr : Nat) (r : Ring) (st : KernelStep) (g : Int)
    (hw : (waitFn st.waits st.cbs).1 = Except.ok ())
    (htag : st.cqe.user_data = tokenTimeout)
    (hgt : st.getTimeRes = Except.ok g) (hrd : st.redrawRes = Except.ok ()) :
    iterate bufAddr r st =
      ⟨(match st.submitRes with
        | Except.error e => IterOut.fatal e
        | Except.ok _ => IterOut.cont),
       { r with
         cqes := fun i => if i = r.cqHead &&& r.cqMask then st.cqe else r.cqes i
         cqHead := (r.cqHead + 1) % u32Mod },
       (waitFn st.waits st.cbs).2.2 ++
         (Event.refCqe (r.cqHead &&& r.cqMask) :: Event.fenceEv ::
          Event.writeHead ((r.cqHead + 1) % u32Mod) ::
          Event.readUserData (r.cqHead &&& r.cqMask) tokenTimeout ::
          Event.enterEv 1 0 0 :: []),
       some tokenTimeout, Branch.timer⟩ := by
  rcases hs : st.submitRes with e | v <;>
    (simp only [iterate]; rw [hw]; simp [complete, htag, hgt, hrd, hs])

theorem iterate_timer_getTime_fail (bufAddr : Nat) (r : Ring) (st : KernelStep) (e : Errno)
    (hw : (waitFn st.waits st.cbs).1 = Except.ok ())
    (htag : st.cqe.user_data = tokenTimeout)
    (hgt : st.getTimeRes = Except.error e) :
    iterate bufAddr r st =
      ⟨IterOut.fatal e,
       { r with
         cqes := fun i => if i = r.cqHead &&& r.cqMask then st.cqe else r.cqes i
         cqHead := (r.cqHead + 1) % u32Mod },
       (waitFn st.waits st.cbs).2.2 ++
         (Event.refCqe (r.cqHead &&& r.cqMask) :: Event.fenceEv ::
          Event.writeHead ((r.cqHead + 1) % u32Mod) ::
          Event.readUserData (r.cqHead &&& r.cqMask) tokenTimeout :: []),
       some tokenTimeout, Branch.timer⟩ := by
  simp only [iterate]
  rw [hw]
  simp [complete, htag, hgt]

theorem iterate_timer_redraw_fail (bufAddr : Nat) (r : Ring) (st : KernelStep) (g : Int)
    (e : Errno) (hw : (waitFn st.waits st.cbs).1 = Except.ok ())
    (htag : st.cqe.user_data = tokenTimeout)
    (hgt : st.getTimeRes = Except.ok g) (hrd : st.redrawRes = Except.error e) :
    iterate bufAddr r st =
      ⟨IterOut.fatal e,
       { r with
         cqes := fun i => if i = r.cqHead &&& r.cqMask then st.cqe else r.cqes i
         cqHead := (r.cqHead + 1) % u32Mod },
       (waitFn st.waits st.cbs).2.2 ++
         (Event.refCqe (r.cqHead &&& r.cqMask) :: Event.fenceEv ::
          Event.writeHead ((r.cqHead + 1) % u32Mod) ::
          Event.readUserData (r.cqHead &&& r.cqMask) tokenTimeout :: []),
       some tokenTimeout, Branch.timer⟩ := by
  simp only [iterate]
  rw [hw]
  simp [complete, htag, hgt, hrd]

theorem iterate_read_quit (bufAddr : Nat) (r : Ring) (st : KernelStep)
    (hw : (waitFn st.waits st.cbs).1 = Except.ok ())
    (htag : st.cqe.user_data = tokenRead)
    (hq : quitCheck st.cqe.res st.buf0 = true) :
    iterate bufAddr r st =
      ⟨IterOut.exit,
       { r with
         cqes := fun i => if i = r.cqHead &&& r.cqMask then st.cqe else r.cqes i
         cqHead := (r.cqHead + 1) % u32Mod },
       (waitFn st.waits st.cbs).2.2 ++
         (Event.refCqe (r.cqHead &&& r.cqMask) :: Event.fenceEv ::
          Event.writeHead ((r.cqHead + 1) % u32Mod) ::
          Event.readUserData (r.cqHead &&& r.cqMask) tokenRead ::
          Event.readRes (r.cqHead &&& r.cqMask) st.cqe.res :: []),
       some tokenRead, Branch.readQuit⟩ := by
  simp only [iterate]
  rw [hw]
  simp [complete, htag, hq, tokenRead, tokenTimeout]

theorem iterate_read_restage (bufAddr : Nat) (r : Ring) (st : KernelStep)
    (hw : (waitFn st.waits st.cbs).1 = Except.ok ())
    (htag : st.cqe.user_data = tokenRead)
    (hq : quitCheck st.cqe.res st.buf0 = false) :
    iterate bufAddr r st =
      ⟨(match st.submitRes with
        | Except.error e => IterOut.fatal e
        | Except.ok _ => IterOut.cont),
       { r with
         cqes := fun i => if i = r.cqHead &&& r.cqMask then st.cqe else r.cqes i
         cqHead := (r.cqHead + 1) % u32Mod
         sqes := fun i => if i = r.sqTail &&& r.sqMask then readSQE bufAddr else r.sqes i
         sqArray := fun i => if i = r.sqTail &&& r.sqMask then r.sqTail &&& r.sqMask
           else r.sqArray i
         sqTail := (r.sqTail + 1) % u32Mod },
       (waitFn st.waits st.cbs).2.2 ++
         (Event.refCqe (r.cqHead &&& r.cqMask) :: Event.fenceEv ::
          Event.writeHead ((r.cqHead + 1) % u32Mod) ::
          Event.readUserData (r.cqHead &&& r.cqMask) tokenRead ::
          Event.readRes (r.cqHead &&& r.cqMask) st.cqe.res ::
          Event.readTail r.sqTail ::
          Event.writeSqe (r.sqTail &&& r.sqMask) (readSQE bufAddr) ::
          Event.writeArray (r.sqTail &&& r.sqMask) (r.sqTail &&& r.sqMask) ::
          Event.fenceEv ::
          Event.writeTail ((r.sqTail + 1) % u32Mod) ::
          Event.enterEv 1 0 0 :: []),
       some tokenRead, Branch.readRestage⟩ := by
  rcases hs : st.submitRes with e | v <;>
    (simp only [iterate]; rw [hw];
     simp [complete, prepare_read, prepare, readSQE, toI32, u32Mod, htag, hq, hs,
       tokenRead, tokenTimeout, STDIN, IORING_OP_READ])

theorem noHandOff_append (a b : List Event) :
    noHandOff (a ++ b) = (noHandOff a && noHandOff b) :=
  List.all_append

theorem stagedOf_setup (bufAddr durAddr : Nat) (r : Ring) :
    stagedOf (setup bufAddr durAddr r).2 = [readSQE bufAddr, timeoutSQE durAddr] := by
  simp [setup, prepare_read, prepare_timeout, prepare, stagedOf, extractSqe, readSQE,
    timeoutSQE, toI32, u32Mod, IORING_OP_READ, IORING_OP_TIMEOUT, STDIN, tokenRead,
    tokenTimeout]

/-! ## Claims about the event loop dispatch -/

/-- C4 (amended): for every completion carrying the `Read` tag whose result
is exactly one byte and whose buffer's first byte is a quit byte of the
source — the escape character `0x1b` or the literal `q` — the event loop
takes the clean-shutdown `break`: the iteration exits, stages no submission
entry, hands nothing off to the kernel, and the whole run ends cleanly with
no further read submission staged. -/
theorem read_quit_terminates (bufAddr : Nat) (r : Ring) (st : KernelStep)
    (rest : List KernelStep)
    (hw : (waitFn st.waits st.cbs).1 = Except.ok ())
    (htag : st.cqe.user_data = tokenRead)
    (hres : st.cqe.res = 1)
    (hbuf : st.buf0 ∈ quitBytes) :
    (iterate bufAddr r st).out = IterOut.exit ∧
    (iterate bufAddr r st).branch = Branch.readQuit ∧
    stagedOf (iterate bufAddr r st).trace = [] ∧
    noHandOff (iterate bufAddr r st).trace = true ∧
    (runLoop bufAddr r (st :: rest)).out = RunOut.clean ∧
    (runLoop bufAddr r (st :: rest)).sums = [(some tokenRead, [])] := by
  have hq : quitCheck st.cqe.res st.buf0 = true := by
    simp only [quitBytes, List.mem_cons, List.not_mem_nil, or_false] at hbuf
    rcases hbuf with h | h <;> simp [quitCheck, quitBytes, hres, h]
  have hit := iterate_read_quit bufAddr r st hw htag hq
  have hstaged : stagedOf (iterate bufAddr r st).trace = [] := by
    rw [hit]
    show stagedOf ((waitFn st.waits st.cbs).2.2 ++ _) = []
    rw [stagedOf_append, stagedOf_waitFn]
    rfl
  refine ⟨by rw [hit], by rw [hit], hstaged, ?_, ?_, ?_⟩
  · rw [hit]
    show noHandOff ((waitFn st.waits st.cbs).2.2 ++ _) = true
    rw [noHandOff_append, noHandOff_waitFn]
    rfl
  · simp only [runLoop]
    rw [hit]
  · simp only [runLoop]
    rw [hit]
    simp only []
    rw [stagedOf_append, stagedOf_waitFn]
    rfl

/-- Witness for `read_quit_terminates`: a one-byte `q` read completion on
the concrete ring. -/
theorem read_quit_terminates_witness :
    ((waitFn stepQuit.waits stepQuit.cbs).1 = Except.ok () ∧
     stepQuit.cqe.user_data = tokenRead ∧ stepQuit.cqe.res = 1 ∧
     stepQuit.buf0 ∈ quitBytes) ∧
    ((iterate 500 ring0 stepQuit).out = IterOut.exit ∧
     (iterate 500 ring0 stepQuit).branch = Branch.readQuit ∧
     stagedOf (iterate 500 ring0 stepQuit).trace = [] ∧
     noHandOff (iterate 500 ring0 stepQuit).trace = true ∧
     (runLoop 500 ring0 (stepQuit :: [])).out = RunOut.clean ∧
     (runLoop 500 ring0 (stepQuit :: [])).sums = [(some tokenRead, [])]) :=
  ⟨⟨rfl, rfl, rfl, by decide⟩,
   read_quit_terminates 500 ring0 stepQuit [] rfl rfl rfl (by decide)⟩

/-- Counterexample to C4 as stated: a `Read` completion of exactly one byte
whose buffer holds the POSIX interrupt character (ETX, `0x03`) satisfies the
claim's terminator description, yet the loop does not terminate — it
re-stages the read and continues.  The source's quit bytes are the escape
character `0x1b` and `q`, not the interrupt character. -/
theorem read_quit_interrupt_counterexample :
    stepIntr.cqe.user_data = tokenRead ∧ stepIntr.cqe.res = 1 ∧
    stepIntr.buf0 ∈ specTerminators ∧
    (iterate 500 ring0 stepIntr).out ≠ IterOut.exit ∧
    (iterate 500 ring0 stepIntr).out = IterOut.cont ∧
    (iterate 500 ring0 stepIntr).branch = Branch.readRestage ∧
    stagedOf (iterate 500 ring0 stepIntr).trace = [readSQE 500] := by
  decide

/-- C5: for every `Read`-tagged completion that does not satisfy the quit
condition, the iteration stages a new read submission with the same `Read`
tag into the same caller-owned buffer (the same buffer address the startup
read staged) before the loop's next wait. -/
theorem read_restaged (bufAddr durAddr : Nat) (r r2 : Ring) (st : KernelStep)
    (hw : (waitFn st.waits st.cbs).1 = Except.ok ())
    (htag : st.cqe.user_data = tokenRead)
    (hq : quitCheck st.cqe.res st.buf0 = false) :
    stagedOf (iterate bufAddr r st).trace = [readSQE bufAddr] ∧
    (iterate bufAddr r st).branch = Branch.readRestage ∧
    (readSQE bufAddr).user_data = tokenRead ∧
    (readSQE bufAddr).addr = bufAddr ∧
    stagedOf (setup bufAddr durAddr r2).2 = [readSQE bufAddr, timeoutSQE durAddr] := by
  have hit := iterate_read_restage bufAddr r st hw htag hq
  refine ⟨?_, by rw [hit], rfl, rfl, stagedOf_setup bufAddr durAddr r2⟩
  rw [hit]
  show stagedOf ((waitFn st.waits st.cbs).2.2 ++ _) = _
  rw [stagedOf_append, stagedOf_waitFn]
  rfl

/-- Witness for `read_restaged`: a five-byte read completion on the
concrete ring. -/
theorem read_restaged_witness :
    ((waitFn stepData.waits stepData.cbs).1 = Except.ok () ∧
     stepData.cqe.user_data = tokenRead ∧
     quitCheck stepData.cqe.res stepData.buf0 = false) ∧
    (stagedOf (iterate 500 ring0 stepData).trace = [readSQE 500] ∧
     (iterate 500 ring0 stepData).branch = Branch.readRestage ∧
     (readSQE 500).user_data = tokenRead ∧
     (readSQE 500).addr = 500 ∧
     stagedOf (setup 500 800 ring0).2 = [readSQE 500, timeoutSQE 800]) :=
  ⟨⟨rfl, rfl, by decide⟩,
   read_restaged 500 800 ring0 ring0 stepData rfl rfl (by decide)⟩

/-- C7: every completion whose correlation tag is neither `Timer` nor
`Read` is a protocol violation: the iteration returns the fatal error `EIO`
(stages nothing), and the run terminates with that fatal error instead of
looping on. -/
theorem unknown_tag_fatal (bufAddr : Nat) (r : Ring) (st : KernelStep)
    (rest : List KernelStep)
    (hw : (waitFn st.waits st.cbs).1 = Except.ok ())
    (h1 : st.cqe.user_data ≠ tokenTimeout) (h2 : st.cqe.user_data ≠ tokenRead) :
    (iterate bufAddr r st).out = IterOut.fatal EIO ∧
    (iterate bufAddr r st).branch = Branch.unknownTag ∧
    stagedOf (iterate bufAddr r st).trace = [] ∧
    (runLoop bufAddr r (st :: rest)).out = RunOut.fatal EIO := by
  have hit := iterate_unknown bufAddr r st hw h1 h2
  refine ⟨by rw [hit], by rw [hit], ?_, ?_⟩
  · rw [hit]
    show stagedOf ((waitFn st.waits st.cbs).2.2 ++ _) = []
    rw [stagedOf_append, stagedOf_waitFn]
    rfl
  · simp only [runLoop]
    rw [hit]

/-- Witness for `unknown_tag_fatal`: a completion tagged `7` on the
concrete ring. -/
theorem unknown_tag_fatal_witness :
    ((waitFn stepOther.waits stepOther.cbs).1 = Except.ok () ∧
     stepOther.cqe.user_data ≠ tokenTimeout ∧ stepOther.cqe.user_data ≠ tokenRead) ∧
    ((iterate 500 ring0 stepOther).out = IterOut.fatal EIO ∧
     (iterate 500 ring0 stepOther).branch = Branch.unknownTag ∧
     stagedOf (iterate 500 ring0 stepOther).trace = [] ∧
     (runLoop 500 ring0 (stepOther :: [])).out = RunOut.fatal EIO) :=
  ⟨⟨rfl, by decide, by decide⟩,
   unknown_tag_fatal 500 ring0 stepOther [] rfl (by decide) (by decide)⟩

/-- Counterexample to C8 as stated: a `Read`-tagged completion reporting
zero bytes is not forwarded to the fatal unrecognized-tag path — the `Read`
arm catches it, the quit check fails on the zero result, and the read is
re-staged; the iteration continues instead of failing with `EIO`. -/
theorem read_zero_counterexample :
    stepZero.cqe.user_data = tokenRead ∧ stepZero.cqe.res = 0 ∧
    (iterate 500 ring0 stepZero).branch ≠ Branch.unknownTag ∧
    (iterate 500 ring0 stepZero).out ≠ IterOut.fatal EIO ∧
    (iterate 500 ring0 stepZero).out = IterOut.cont ∧
    stagedOf (iterate 500 ring0 stepZero).trace = [readSQE 500] := by
  decide

/-- C8 (amended): a `Read`-tagged completion reporting zero bytes or a read
error (non-positive result) is handled by the `Read` dispatch arm, not the
generic unrecognized path: the quit check fails and the read submission is
re-staged. -/
theorem read_error_restaged (bufAddr : Nat) (r : Ring) (st : KernelStep)
    (hw : (waitFn st.waits st.cbs).1 = Except.ok ())
    (htag : st.cqe.user_data = tokenRead)
    (hres : st.cqe.res ≤ 0) :
    (iterate bufAddr r st).branch = Branch.readRestage ∧
    (iterate bufAddr r st).branch ≠ Branch.unknownTag ∧
    stagedOf (iterate bufAddr r st).trace = [readSQE bufAddr] ∧
    (iterate bufAddr r st).popped = some tokenRead := by
  have h1 : (st.cqe.res == 1) = false := by
    rw [beq_eq_false_iff_ne]
    omega
  have hq : quitCheck st.cqe.res st.buf0 = false := by
    simp [quitCheck, h1]
  have hit := iterate_read_restage bufAddr r st hw htag hq
  refine ⟨by rw [hit], by rw [hit]; simp, ?_, by rw [hit]⟩
  rw [hit]
  show stagedOf ((waitFn st.waits st.cbs).2.2 ++ _) = _
  rw [stagedOf_append, stagedOf_waitFn]
  rfl

/-- Witness for `read_error_restaged`: the zero-byte read completion on the
concrete ring. -/
theorem read_error_restaged_witness :
    ((waitFn stepZero.waits stepZero.cbs).1 = Except.ok () ∧
     stepZero.cqe.user_data = tokenRead ∧ stepZero.cqe.res ≤ 0) ∧
    ((iterate 500 ring0 stepZero).branch = Branch.readRestage ∧
     (iterate 500 ring0 stepZero).branch ≠ Branch.unknownTag ∧
     stagedOf (iterate 500 ring0 stepZero).trace = [readSQE 500] ∧
     (iterate 500 ring0 stepZero).popped = some tokenRead) :=
  ⟨⟨rfl, rfl, by decide⟩,
   read_error_restaged 500 ring0 stepZero rfl rfl (by decide)⟩

theorem staged_nil_ok (tr : List Event) (pop : Option Nat) (h : stagedOf tr = []) :
    ((stagedOf tr).all fun e => e.user_data == tokenRead) = true ∧
    (((stagedOf tr).isEmpty || (pop == some tokenRead)) = true) := by
  rw [h]
  exact ⟨rfl, rfl⟩

theorem iterate_staged_ok (bufAddr : Nat) (r : Ring) (st : KernelStep) :
    ((stagedOf (iterate bufAddr r st).trace).all fun e => e.user_data == tokenRead) = true ∧
    (((stagedOf (iterate bufAddr r st).trace).isEmpty ||
      ((iterate bufAddr r st).popped == some tokenRead)) = true) := by
  rcases hw : (waitFn st.waits st.cbs).1 with e | u
  · apply staged_nil_ok
    rw [iterate_wait_fail bufAddr r st e hw]
    show stagedOf (waitFn st.waits st.cbs).2.2 = []
    rw [stagedOf_waitFn]
  · cases u
    by_cases h1 : st.cqe.user_data = tokenTimeout
    · rcases hgt : st.getTimeRes with e | g
      · apply staged_nil_ok
        rw [iterate_timer_getTime_fail bufAddr r st e hw h1 hgt]
        show stagedOf ((waitFn st.waits st.cbs).2.2 ++ _) = []
        rw [stagedOf_append, stagedOf_waitFn]
        rfl
      · rcases hrd : st.redrawRes with e | v
        · apply staged_nil_ok
          rw [iterate_timer_redraw_fail bufAddr r st g e hw h1 hgt hrd]
          show stagedOf ((waitFn st.waits st.cbs).2.2 ++ _) = []
          rw [stagedOf_append, stagedOf_waitFn]
          rfl
        · cases v
          apply staged_nil_ok
          rw [iterate_timer bufAddr r st g hw h1 hgt hrd]
          show stagedOf ((waitFn st.waits st.cbs).2.2 ++ _) = []
          rw [stagedOf_append, stagedOf_waitFn]
          rfl
    · by_cases h2 : st.cqe.user_data = tokenRead
      · by_cases hq : quitCheck st.cqe.res st.buf0 = true
        · apply staged_nil_ok
          rw [iterate_read_quit bufAddr r st hw h2 hq]
          show stagedOf ((waitFn st.waits st.cbs).2.2 ++ _) = []
          rw [stagedOf_append, stagedOf_waitFn]
          rfl
        · rw [Bool.not_eq_true] at hq
          have hit := iterate_read_restage bufAddr r st hw h2 hq
          have hstaged : stagedOf (iterate bufAddr r st).trace = [readSQE bufAddr] := by
            rw [hit]
            show stagedOf ((waitFn st.waits st.cbs).2.2 ++ _) = _
            rw [stagedOf_append, stagedOf_waitFn]
            rfl
          rw [hstaged]
          refine ⟨rfl, ?_⟩
          rw [hit]
          rfl
      · apply staged_nil_ok
        rw [iterate_unknown bufAddr r st hw h1 h2]
        show stagedOf ((waitFn st.waits st.cbs).2.2 ++ _) = []
        rw [stagedOf_append, stagedOf_waitFn]
        rfl

theorem runLoop_staged_ok (bufAddr : Nat) :
    ∀ (steps : List KernelStep) (r : Ring),
    ((runLoop bufAddr r steps).sums.all fun s =>
      (s.2.all fun e => e.user_data == tokenRead) &&
      (s.2.isEmpty || s.1 == some tokenRead)) = true := by
  intro steps
  induction steps with
  | nil => intro r; rfl
  | cons st rest ih =>
    intro r
    obtain ⟨ha, hb⟩ := iterate_staged_ok bufAddr r st
    simp only [runLoop]
    rcases ho : (iterate bufAddr r st).out with _ | _ | e <;>
      simp [ha, hb, ih]

/-- C9: submission staging discipline of the whole program.  Startup stages
exactly two entries — one `Read`-tagged read and one `Timer`-tagged
multishot timeout (the only `Timer`-tagged entry a run ever stages) — and
in every reachable iteration of the loop, whatever the kernel oracle does,
any entry staged is the `Read`-tagged read and is staged only in an
iteration that popped a `Read`-tagged completion first; so each of the two
live logical operations is rewritten only after its prior submission's
completion was observed. -/
theorem slot_reuse_discipline (bufAddr durAddr : Nat) (r : Ring)
    (steps : List KernelStep) :
    stagedOf (setup bufAddr durAddr r).2 = [readSQE bufAddr, timeoutSQE durAddr] ∧
    ((runLoop bufAddr (setup bufAddr durAddr r).1 steps).sums.all fun s =>
      (s.2.all fun e => e.user_data == tokenRead) &&
      (s.2.isEmpty || s.1 == some tokenRead)) = true :=
  ⟨stagedOf_setup bufAddr durAddr r, runLoop_staged_ok bufAddr steps _⟩

/-- C10: `complete` returns a borrowed reference into the completion ring,
not a copy: in every iteration whose wait succeeds, the trace contains the
head update `writeHead (head + 1)` — which releases slot `head & cq_mask`
back to the kernel — and every read of the popped entry's `user_data`/`res`
fields happens after that head update and targets exactly the released
slot; the tag the loop dispatches on is the value the kernel stored in that
already-released slot. -/
theorem complete_ref_after_release (bufAddr : Nat) (r : Ring) (st : KernelStep)
    (hw : (waitFn st.waits st.cbs).1 = Except.ok ())
    (hh : r.cqHead + 1 < u32Mod) :
    headBeforeReads r.cqMask (iterate bufAddr r st).trace = true ∧
    Event.writeHead (r.cqHead + 1) ∈ (iterate bufAddr r st).trace ∧
    Event.readUserData (r.cqHead &&& r.cqMask) st.cqe.user_data ∈
      (iterate bufAddr r st).trace ∧
    (iterate bufAddr r st).popped = some st.cqe.user_data := by
  by_cases h1 : st.cqe.user_data = tokenTimeout
  · rcases hgt : st.getTimeRes with e | g
    · have hit := iterate_timer_getTime_fail bufAddr r st e hw h1 hgt
      rw [hit]
      refine ⟨?_, ?_, ?_, ?_⟩
      · show headBeforeReads r.cqMask ((waitFn st.waits st.cbs).2.2 ++ _) = true
        rw [headBeforeReads_append_enters _ _ _ (waitFn_trace_all st.waits st.cbs),
          Nat.mod_eq_of_lt hh]
        simp [headBeforeReads, isFieldRead, fieldReadSlot, Nat.add_sub_cancel]
      · show Event.writeHead (r.cqHead + 1) ∈ (waitFn st.waits st.cbs).2.2 ++ _
        rw [Nat.mod_eq_of_lt hh]
        simp
      · show Event.readUserData (r.cqHead &&& r.cqMask) st.cqe.user_data ∈
          (waitFn st.waits st.cbs).2.2 ++ _
        rw [h1]
        simp
      · rw [h1]
    · rcases hrd : st.redrawRes with e | v
      · have hit := iterate_timer_redraw_fail bufAddr r st g e hw h1 hgt hrd
        rw [hit]
        refine ⟨?_, ?_, ?_, ?_⟩
        · show headBeforeReads r.cqMask ((waitFn st.waits st.cbs).2.2 ++ _) = true
          rw [headBeforeReads_append_enters _ _ _ (waitFn_trace_all st.waits st.cbs),
            Nat.mod_eq_of_lt hh]
          simp [headBeforeReads, isFieldRead, fieldReadSlot, Nat.add_sub_cancel]
        · show Event.writeHead (r.cqHead + 1) ∈ (waitFn st.waits st.cbs).2.2 ++ _
          rw [Nat.mod_eq_of_lt hh]
          simp
        · show Event.readUserData (r.cqHead &&& r.cqMask) st.cqe.user_data ∈
            (waitFn st.waits st.cbs).2.2 ++ _
          rw [h1]
          simp
        · rw [h1]
      · cases v
        have hit := iterate_timer bufAddr r st g hw h1 hgt hrd
        rw [hit]
        refine ⟨?_, ?_, ?_, ?_⟩
        · show headBeforeReads r.cqMask ((waitFn st.waits st.cbs).2.2 ++ _) = true
          rw [headBeforeReads_append_enters _ _ _ (waitFn_trace_all st.waits st.cbs),
            Nat.mod_eq_of_lt hh]
          simp [headBeforeReads, isFieldRead, fieldReadSlot, Nat.add_sub_cancel]
        · show Event.writeHead (r.cqHead + 1) ∈ (waitFn st.waits st.cbs).2.2 ++ _
          rw [Nat.mod_eq_of_lt hh]
          simp
        · show Event.readUserData (r.cqHead &&& r.cqMask) st.cqe.user_data ∈
            (waitFn st.waits st.cbs).2.2 ++ _
          rw [h1]
          simp
        · rw [h1]
  · by_cases h2 : st.cqe.user_data = tokenRead
    · by_cases hq : quitCheck st.cqe.res st.buf0 = true
      · have hit := iterate_read_quit bufAddr r st hw h2 hq
        rw [hit]
        refine ⟨?_, ?_, ?_, ?_⟩
        · show headBeforeReads r.cqMask ((waitFn st.waits st.cbs).2.2 ++ _) = true
          rw [headBeforeReads_append_enters _ _ _ (waitFn_trace_all st.waits st.cbs),
            Nat.mod_eq_of_lt hh]
          simp [headBeforeReads, isFieldRead, fieldReadSlot, Nat.add_sub_cancel]
        · show Event.writeHead (r.cqHead + 1) ∈ (waitFn st.waits st.cbs).2.2 ++ _
          rw [Nat.mod_eq_of_lt hh]
          simp
        · show Event.readUserData (r.cqHead &&& r.cqMask) st.cqe.user_data ∈
            (waitFn st.waits st.cbs).2.2 ++ _
          rw [h2]
          simp
        · rw [h2]
      · rw [Bool.not_eq_true] at hq
        have hit := iterate_read_restage bufAddr r st hw h2 hq
        rw [hit]
        refine ⟨?_, ?_, ?_, ?_⟩
        · show headBeforeReads r.cqMask ((waitFn st.waits st.cbs).2.2 ++ _) = true
          rw [headBeforeReads_append_enters _ _ _ (waitFn_trace_all st.waits st.cbs),
            Nat.mod_eq_of_lt hh]
          simp [headBeforeReads, isFieldRead, fieldReadSlot, Nat.add_sub_cancel]
        · show Event.writeHead (r.cqHead + 1) ∈ (waitFn st.waits st.cbs).2.2 ++ _
          rw [Nat.mod_eq_of_lt hh]
          simp
        · show Event.readUserData (r.cqHead &&& r.cqMask) st.cqe.user_data ∈
            (waitFn st.waits st.cbs).2.2 ++ _
          rw [h2]
          simp
        · rw [h2]
    · have hit := iterate_unknown bufAddr r st hw h1 h2
      rw [hit]
      refine ⟨?_, ?_, ?_, ?_⟩
      · show headBeforeReads r.cqMask ((waitFn st.waits st.cbs).2.2 ++ _) = true
        rw [headBeforeReads_append_enters _ _ _ (waitFn_trace_all st.waits st.cbs),
          Nat.mod_eq_of_lt hh]
        simp [headBeforeReads, isFieldRead, fieldReadSlot, Nat.add_sub_cancel]
      · show Event.writeHead (r.cqHead + 1) ∈ (waitFn st.waits st.cbs).2.2 ++ _
        rw [Nat.mod_eq_of_lt hh]
        simp
      · show Event.readUserData (r.cqHead &&& r.cqMask) st.cqe.user_data ∈
          (waitFn st.waits st.cbs).2.2 ++ _
        simp
      · rfl

/-- Witness for `complete_ref_after_release` at the concrete ring and the
quit completion. -/
theorem complete_ref_after_release_witness :
    ((waitFn stepQuit.waits stepQuit.cbs).1 = Except.ok () ∧
     ring0.cqHead + 1 < u32Mod) ∧
    (headBeforeReads ring0.cqMask (iterate 500 ring0 stepQuit).trace = true ∧
     Event.writeHead (ring0.cqHead + 1) ∈ (iterate 500 ring0 stepQuit).trace ∧
     Event.readUserData (ring0.cqHead &&& ring0.cqMask) stepQuit.cqe.user_data ∈
       (iterate 500 ring0 stepQuit).trace ∧
     (iterate 500 ring0 stepQuit).popped = some stepQuit.cqe.user_data) :=
  ⟨⟨rfl, by decide⟩, complete_ref_after_release 500 ring0 stepQuit rfl (by decide)⟩

end Clock
